import Mathlib

/-!
Verification of the cvat-utils core module (`cvat_utils/core.py`).

The development shallowly embeds the metadata-reconciliation engine
(`load_task_data`), the image-id derivation (`image_path_to_image_id`)
and the export/download state machine (`download_images`) as executable
Lean functions, and proves or refutes the specified properties.

Strings are modelled as `List Char`; Python `str.split(sep)` and
`sep.join(...)` are embedded as `pySplit` and `List.intercalate`.
Assertion failures are modelled with `Except (List Char)`, the payload
being the assertion message.
-/

/-- Python `s.split(sep)` for a one-character separator: always returns a
non-empty list of (possibly empty) groups, one more group than there are
separator occurrences. -/
def pySplit (sep : Char) : List Char → List (List Char)
  | [] => [[]]
  | c :: cs =>
    let r := pySplit sep cs
    if c = sep then [] :: r
    else
      match r with
      | [] => [[c]]
      | g :: gs => (c :: g) :: gs

/-- `image_path_to_image_id` from core.py line 69-71:
`".".join(image_path.split(".")[:-1])`. -/
def image_path_to_image_id (image_path : List Char) : List Char :=
  List.intercalate ['.'] ((pySplit '.' image_path).dropLast)

/-- `x.name.split("/")[-1]` from core.py line 98 (display file name). -/
def fileNameOf (image_path : List Char) : List Char :=
  (pySplit '/' image_path).getLastD []

/-- One per-frame descriptor of the task metadata (`meta.frames` entry). -/
structure FrameMeta where
  name : List Char
  width : Int
  height : Int
deriving DecidableEq, Repr

/-- A job as it appears nested inside a segment of the task record. -/
structure SegJob where
  id : Nat
  status : List Char
  url : List Char
deriving DecidableEq, Repr

/-- A segment of the task record: frame bounds plus nested jobs. -/
structure Segment where
  start_frame : Nat
  stop_frame : Nat
  jobs : List SegJob
deriving DecidableEq, Repr

/-- The task record (the fields `load_task_data` uses). -/
structure FullTask where
  name : List Char
  segments : List Segment
deriving DecidableEq, Repr

/-- The task metadata record (the fields `load_task_data` uses). -/
structure FullTaskMetadata where
  start_frame : Nat
  stop_frame : Nat
  frames : List FrameMeta
deriving DecidableEq, Repr

/-- The derived job view: segment job plus the segment's frame bounds
(`Job(**job.dict(), start_frame=..., stop_frame=...)`, core.py 86-90). -/
structure Job where
  id : Nat
  status : List Char
  url : List Char
  start_frame : Nat
  stop_frame : Nat
deriving DecidableEq, Repr

/-- Modelled from the spec: the `Frame` record type lives in
`cvat_utils/models.py`, which is not part of the sources; per the spec's
FrameIndex-entry description its `job_id` and job `status` fields are
optional and null until the second (backfill) pass fills them. -/
structure Frame where
  id : List Char
  frame_id : Nat
  file_name : List Char
  width : Int
  height : Int
  task_id : Nat
  task_name : List Char
  job_id : Option Nat := none
  status : Option (List Char) := none
deriving DecidableEq, Repr

/-- Decimal digits of a number, as characters. -/
def natChars (n : Nat) : List Char :=
  Nat.toDigits 10 n

/-- Assertion message of core.py line 85. -/
def inv1msg : List Char :=
  "Unexpected CVAT data: one segment has multiple jobs.".toList

/-- Assertion message of core.py line 112 (f-string interpolated). -/
def inv3msg (jid fid : Nat) : List Char :=
  "Unexpected CVAT data: job (".toList ++ natChars jid
    ++ ") is missing a frame (".toList ++ natChars fid ++ ").".toList

/-- Assertion message of core.py line 118 (f-string interpolated). -/
def inv4msg (fid : Nat) : List Char :=
  "Unexpected CVAT data: frame (".toList ++ natChars fid
    ++ ") is missing job id.".toList

/-- The derived job list (core.py lines 86-90): flatten every segment's
jobs, attaching the segment's frame bounds. -/
def deriveJobs (task : FullTask) : List Job :=
  (task.segments.map (fun segment =>
    segment.jobs.map (fun job =>
      { id := job.id, status := job.status, url := job.url,
        start_frame := segment.start_frame, stop_frame := segment.stop_frame }))).flatten

/-- `range(meta.start_frame, meta.stop_frame + 1)` (core.py line 93). -/
def frameIdsRange (meta : FullTaskMetadata) : List Nat :=
  List.range' meta.start_frame (meta.stop_frame + 1 - meta.start_frame)

/-- `range(job.start_frame, job.stop_frame + 1)` (core.py line 109). -/
def jobRange (j : Job) : List Nat :=
  List.range' j.start_frame (j.stop_frame + 1 - j.start_frame)

/-- `job.start_frame <= fid <= job.stop_frame`. -/
def covers (j : Job) (fid : Nat) : Bool :=
  decide (j.start_frame ≤ fid) && decide (fid ≤ j.stop_frame)

/-- The initial frame index (core.py lines 94-105): zip the declared
frame-id range positionally against the metadata frame descriptors.
Python's `zip` (and `List.zip`) truncates to the shorter operand. -/
def buildFrames (task_id : Nat) (task : FullTask) (meta : FullTaskMetadata) :
    List (Nat × Frame) :=
  ((frameIdsRange meta).zip meta.frames).map (fun q =>
    (q.1,
      { id := image_path_to_image_id q.2.name
        frame_id := q.1
        file_name := fileNameOf q.2.name
        width := q.2.width
        height := q.2.height
        task_id := task_id
        task_name := task.name
        job_id := none
        status := none }))

/-- `frames[frame_id].job_id = ...; frames[frame_id].status = ...`
(core.py lines 113-114): update the entry keyed `fid` in place. -/
def setFrame (fr : List (Nat × Frame)) (fid jid : Nat) (st : List Char) :
    List (Nat × Frame) :=
  fr.map (fun p =>
    if p.1 = fid then (p.1, { p.2 with job_id := some jid, status := some st }) else p)

/-- The inner loop of core.py lines 109-114 for one job: for each frame id
in the job's range, assert the id is a key of the index, then set the
entry's job id and status. -/
def applyJobFrames (jid : Nat) (st : List Char) :
    List Nat → List (Nat × Frame) → Except (List Char) (List (Nat × Frame))
  | [], fr => .ok fr
  | fid :: rest, fr =>
    if fid ∈ fr.map Prod.fst then applyJobFrames jid st rest (setFrame fr fid jid st)
    else .error (inv3msg jid fid)

/-- One iteration of the outer loop of core.py lines 108-114. -/
def applyJob (j : Job) (fr : List (Nat × Frame)) :
    Except (List Char) (List (Nat × Frame)) :=
  applyJobFrames j.id j.status (jobRange j) fr

/-- The outer loop of core.py lines 108-114: apply every job in order. -/
def applyJobs : List Job → List (Nat × Frame) → Except (List Char) (List (Nat × Frame))
  | [], fr => .ok fr
  | j :: rest, fr =>
    match applyJob j fr with
    | .error e => .error e
    | .ok fr₁ => applyJobs rest fr₁

/-- Core.py lines 115-118: assert every frame of the index has a job id. -/
def checkFrames : List (Nat × Frame) → Except (List Char) Unit
  | [] => .ok ()
  | (fid, f) :: rest =>
    match f.job_id with
    | none => .error (inv4msg fid)
    | some _ => checkFrames rest

/-- `load_task_data` (core.py lines 74-125) given the already-fetched task
and metadata records: assert single-job segments, derive the job list,
build the frame index, backfill job ids, and check invariant 4. -/
def load_task_data (task_id : Nat) (task : FullTask) (meta : FullTaskMetadata) :
    Except (List Char) (List Job × List (Nat × Frame)) :=
  if task.segments.all (fun x => x.jobs.length == 1) then
    match applyJobs (deriveJobs task) (buildFrames task_id task meta) with
    | .error e => .error e
    | .ok fr =>
      match checkFrames fr with
      | .error e => .error e
      | .ok _ => .ok (deriveJobs task, fr)
  else .error inv1msg

/-- The last job of the list whose range covers `fid` (last-write-wins
order of the backfill loop). -/
def lastCovering (js : List Job) (fid : Nat) : Option Job :=
  (js.filter (fun j => covers j fid)).getLast?

/-- Key plus the two mutable fields of a frame-index entry. -/
def pView (p : Nat × Frame) : Nat × (Option Nat × Option (List Char)) :=
  (p.1, (p.2.job_id, p.2.status))

/-- What the backfill loop over a job list does to one entry's mutable
fields: the last covering job wins, otherwise the old value stays. -/
def applyView (js : List Job) (fid : Nat) (v : Option Nat × Option (List Char)) :
    Option Nat × Option (List Char) :=
  match lastCovering js fid with
  | some j => (some j.id, some j.status)
  | none => v

/-- Observable events of the export-polling loop of core.py lines 170-176. -/
inductive PollEvent where
  | request
  | log500
  | sleep (units : Nat)
deriving DecidableEq, Repr

/-- The polling loop of core.py lines 170-176, driven by the sequence of
status codes the server returns: issue a request; on 201 break; on 500 log
an error; then sleep 5 units and re-request.  `none` models the loop
running past the supplied responses (it has no retry bound of its own). -/
def pollEvents : List Nat → Option (List PollEvent)
  | [] => none
  | s :: rest =>
    if s = 201 then some [.request]
    else
      (pollEvents rest).map (fun es =>
        .request :: ((if s = 500 then [.log500] else []) ++ (.sleep 5 :: es)))

/-- Number of sleep events in a poll trace. -/
def countSleeps (es : List PollEvent) : Nat :=
  (es.filter (fun e => match e with | .sleep _ => true | _ => false)).length

/-- The two download strategies of core.py lines 190-202: buffer the whole
body in memory, or stream it in fixed-size chunks to a named file. -/
inductive DownloadAction where
  | bufferInMemory
  | streamToFile (fileName : List Char) (chunkSize : Nat)
deriving DecidableEq, Repr

/-- `f"task-{task_id}.zip"` (core.py line 198). -/
def taskZipName (task_id : Nat) : List Char :=
  "task-".toList ++ natChars task_id ++ ".zip".toList

/-- Strategy selection of core.py lines 190-202, given the advertised
content length already converted to gigabytes and the configured
threshold (`config.DOWNLOAD_THRESHOLD_GB`):
`keep_in_memory = content_legth_gb <= config.DOWNLOAD_THRESHOLD_GB`. -/
def selectDownloadAction (task_id : Nat) (content_legth_gb threshold_gb : ℚ) :
    DownloadAction :=
  if content_legth_gb ≤ threshold_gb then .bufferInMemory
  else .streamToFile (taskZipName task_id) 8192

/-- Modelled from the spec: `is_image` lives in `cvat_utils/utils.py`,
which is not part of the sources; the spec describes it only as an
extension-based image classifier, so extraction is modelled over an
abstract classifier.  Core.py line 212:
`files = [x for x in zip_ref.namelist() if is_image(x)]` — exactly these
members are passed to `extractall` (line 213). -/
def extractedMembers (isImg : List Char → Bool) (names : List (List Char)) :
    List (List Char) :=
  names.filter isImg

/-- The file list `download_images` returns (core.py lines 211-218): the
image-filtered member list, prefixed with `task-{id}/` when
`keep_image_path` is false (line 215). -/
def downloadFilesResult (isImg : List Char → Bool) (names : List (List Char))
    (keep_image_path : Bool) (task_id : Nat) : List (List Char) :=
  let files := extractedMembers isImg names
  if keep_image_path then files
  else files.map (fun x => "task-".toList ++ natChars task_id ++ "/".toList ++ x)

/-! ### String-level lemmas -/

/-- Splitting on a separator absent from the string yields one group. -/
theorem pySplit_no_sep {sep : Char} :
    ∀ {p : List Char}, sep ∉ p → pySplit sep p = [p]
  | [], _ => rfl
  | c :: cs, h => by
    have hc : ¬ c = sep := fun hc => h (hc ▸ List.mem_cons_self c cs)
    have hcs : sep ∉ cs := fun hm => h (List.mem_cons_of_mem _ hm)
    simp [pySplit, hc, pySplit_no_sep hcs]

/-- A path with no dot is mapped to the empty image id. -/
theorem id_of_no_dot {p : List Char} (h : '.' ∉ p) :
    image_path_to_image_id p = [] := by
  unfold image_path_to_image_id
  rw [pySplit_no_sep h]
  rfl

/-! ### C3, C10: image-id derivation -/

/-- C3 (counterexample): image-id derivation is not idempotent — applying
it twice to "dir/img.png" strips two dot-segments, yielding "" instead of
"dir/img". -/
theorem c3_idempotence_counterexample :
    ¬ (image_path_to_image_id (image_path_to_image_id "dir/img.png".toList)
        = image_path_to_image_id "dir/img.png".toList) := by
  decide

/-- C3 (amended): image-id derivation strips the last dot-delimited
extension segment — "dir/img.png" maps to id "dir/img" and display file
name "img.png" — but it is idempotent only where the derived id is empty;
in particular it is idempotent on every path containing no dot. -/
theorem c3_extension_stripping_amended :
    image_path_to_image_id "dir/img.png".toList = "dir/img".toList ∧
    fileNameOf "dir/img.png".toList = "img.png".toList ∧
    ∀ p : List Char, '.' ∉ p →
      image_path_to_image_id (image_path_to_image_id p) = image_path_to_image_id p := by
  refine ⟨by decide, by decide, ?_⟩
  intro p hp
  rw [id_of_no_dot hp]
  decide

/-- C3 (witness): the amended idempotence instance at the dot-free path
"img". -/
theorem c3_witness :
    ('.' ∉ "img".toList) ∧
    image_path_to_image_id (image_path_to_image_id "img".toList)
      = image_path_to_image_id "img".toList :=
  ⟨by decide, c3_extension_stripping_amended.2.2 "img".toList (by decide)⟩

/-- C10: every dot-free path is mapped to the empty image id, and hence
all extensionless paths collapse to one and the same (empty) image id. -/
theorem c10_no_dot_empty_id :
    ∀ p : List Char, '.' ∉ p →
      image_path_to_image_id p = [] ∧
      ∀ q : List Char, '.' ∉ q →
        image_path_to_image_id p = image_path_to_image_id q := by
  intro p hp
  refine ⟨id_of_no_dot hp, ?_⟩
  intro q hq
  rw [id_of_no_dot hp, id_of_no_dot hq]

/-- C10 (witness): the extensionless paths "img" and "photo" both collapse
to the empty image id. -/
theorem c10_witness :
    image_path_to_image_id "img".toList = [] ∧
    image_path_to_image_id "img".toList = image_path_to_image_id "photo".toList :=
  ⟨(c10_no_dot_empty_id "img".toList (by decide)).1,
   (c10_no_dot_empty_id "img".toList (by decide)).2 "photo".toList (by decide)⟩

/-! ### C4: download strategy selection -/

/-- C4: if the advertised content length in gigabytes is strictly above
the configured threshold, the payload is streamed in 8192-byte chunks to
the file `task-{id}.zip`; at or below the threshold it is buffered in
memory and no file is involved. -/
theorem c4_download_threshold :
    ∀ (tid : Nat) (gb th : ℚ),
      (th < gb →
        selectDownloadAction tid gb th = .streamToFile (taskZipName tid) 8192) ∧
      (gb ≤ th → selectDownloadAction tid gb th = .bufferInMemory) := by
  intro tid gb th
  constructor
  · intro h
    unfold selectDownloadAction
    rw [if_neg (not_le.mpr h)]
  · intro h
    unfold selectDownloadAction
    rw [if_pos h]

/-- C4 (witness): a 2 GB payload against a 1 GB threshold streams to
`task-3.zip` in 8192-byte chunks; a 1 GB payload against a 2 GB threshold
is buffered in memory. -/
theorem c4_witness :
    selectDownloadAction 3 2 1 = .streamToFile (taskZipName 3) 8192 ∧
    selectDownloadAction 3 1 2 = .bufferInMemory :=
  ⟨(c4_download_threshold 3 2 1).1 (by decide),
   (c4_download_threshold 3 1 2).2 (by decide)⟩

/-! ### C9: archive extraction -/

/-- C9: the extracted archive members are exactly the image-classified
ones, in member-list order (a sublist of the member list), no non-image
member is extracted, and the returned file list is the extracted list
(prefixed by `task-{id}/` when `keep_image_path` is false). -/
theorem c9_extraction_image_only :
    ∀ (isImg : List Char → Bool) (names : List (List Char)) (tid : Nat),
      (∀ f ∈ extractedMembers isImg names, isImg f = true) ∧
      (∀ f ∈ names, isImg f = false → f ∉ extractedMembers isImg names) ∧
      List.Sublist (extractedMembers isImg names) names ∧
      downloadFilesResult isImg names true tid = extractedMembers isImg names ∧
      downloadFilesResult isImg names false tid =
        (extractedMembers isImg names).map
          (fun x => "task-".toList ++ natChars tid ++ "/".toList ++ x) := by
  intro isImg names tid
  refine ⟨?_, ?_, List.filter_sublist names, rfl, rfl⟩
  · intro f hf
    exact (List.mem_filter.mp hf).2
  · intro f _ hni hmem
    have h := (List.mem_filter.mp hmem).2
    rw [hni] at h
    exact Bool.false_ne_true h

/-- A concrete extension-style classifier used to witness C9. -/
def isPngLike (f : List Char) : Bool :=
  (f == "a.png".toList) || (f == "b.png".toList)

/-- C9 (witness): on the member list [a.png, note.txt, b.png] the
extracted member a.png is image-classified, and note.txt is not
extracted. -/
theorem c9_witness :
    isPngLike "a.png".toList = true ∧
    "note.txt".toList ∉
      extractedMembers isPngLike
        ["a.png".toList, "note.txt".toList, "b.png".toList] :=
  ⟨(c9_extraction_image_only isPngLike
      ["a.png".toList, "note.txt".toList, "b.png".toList] 1).1
      "a.png".toList (by decide),
   (c9_extraction_image_only isPngLike
      ["a.png".toList, "note.txt".toList, "b.png".toList] 1).2.1
      "note.txt".toList (by decide) (by decide)⟩

/-! ### C5: export polling loop -/

/-- C5: for any run of non-201 responses (500s included — they are logged
but never terminate the loop) followed by a 201, the polling loop performs
exactly one sleep per non-201 response, every sleep is the fixed 5 units,
and the loop then proceeds (the trace is complete). -/
theorem c5_poll_sleeps :
    ∀ l : List Nat, 201 ∉ l →
      ∃ es, pollEvents (l ++ [201]) = some es ∧ countSleeps es = l.length ∧
        ∀ u : Nat, PollEvent.sleep u ∈ es → u = 5 := by
  intro l
  induction l with
  | nil =>
    intro _
    refine ⟨[.request], rfl, rfl, ?_⟩
    intro u hu
    simp at hu
  | cons s t ih =>
    intro hl
    have hs : ¬ s = 201 := fun h => hl (h ▸ List.mem_cons_self s t)
    have ht : 201 ∉ t := fun h => hl (List.mem_cons_of_mem _ h)
    obtain ⟨es, hes, hc, h5⟩ := ih ht
    refine ⟨.request :: ((if s = 500 then [.log500] else []) ++ (.sleep 5 :: es)),
      ?_, ?_, ?_⟩
    · simp [pollEvents, hs, hes]
    · by_cases h500 : s = 500 <;>
        simp [h500, countSleeps, List.filter_append] <;>
        simpa [countSleeps] using hc
    · intro u hu
      rcases List.mem_cons.mp hu with h | h
      · exact absurd h (by simp)
      · rcases List.mem_append.mp h with h | h
        · by_cases h500 : s = 500 <;> simp [h500] at h
        · rcases List.mem_cons.mp h with h | h
          · exact (PollEvent.sleep.injEq u 5 ▸ congrArg id h) ▸ rfl
          · exact h5 u h

/-- C5 (witness): three non-201 responses (all 500, exercising the logged
non-terminating server-error branch) followed by a 201 give a complete
trace with exactly 3 sleeps. -/
theorem c5_witness :
    ∃ es, pollEvents ([500, 500, 500] ++ [201]) = some es ∧
      countSleeps es = 3 ∧ ∀ u : Nat, PollEvent.sleep u ∈ es → u = 5 :=
  c5_poll_sleeps [500, 500, 500] (by decide)

/-! ### Reconciliation-engine lemmas -/

/-- `setFrame` leaves the key column untouched. -/
theorem setFrame_keys (fr : List (Nat × Frame)) (fid jid : Nat) (st : List Char) :
    (setFrame fr fid jid st).map Prod.fst = fr.map Prod.fst := by
  unfold setFrame
  rw [List.map_map]
  have h : (Prod.fst ∘ fun p : Nat × Frame =>
      if p.1 = fid then (p.1, { p.2 with job_id := some jid, status := some st }) else p)
      = Prod.fst := by
    funext p
    by_cases hp : p.1 = fid <;> simp [hp]
  rw [h]

/-- `setFrame` on the key/job-id/status view: the matching key gets the
new job id and status, everything else keeps its old value. -/
theorem setFrame_pView (fr : List (Nat × Frame)) (fid jid : Nat) (st : List Char) :
    (setFrame fr fid jid st).map pView
      = (fr.map pView).map
          (fun kv => (kv.1, if kv.1 = fid then (some jid, some st) else kv.2)) := by
  unfold setFrame
  rw [List.map_map, List.map_map]
  have h : ((fun kv : Nat × (Option Nat × Option (List Char)) =>
        (kv.1, if kv.1 = fid then (some jid, some st) else kv.2)) ∘ pView)
      = (pView ∘ fun p : Nat × Frame =>
        if p.1 = fid then (p.1, { p.2 with job_id := some jid, status := some st }) else p) := by
    funext p
    by_cases hp : p.1 = fid <;> simp [pView, hp]
  rw [h]

/-- The key column factors through the view. -/
theorem keys_pView (fr : List (Nat × Frame)) :
    (fr.map pView).map Prod.fst = fr.map Prod.fst := by
  rw [List.map_map]
  rfl

/-- A view-level map that keeps the key column fixed preserves the key
column of the underlying frame lists. -/
theorem map_fst_of_pView_eq {fr' fr : List (Nat × Frame)}
    {g : Nat × (Option Nat × Option (List Char)) → Option Nat × Option (List Char)}
    (h : fr'.map pView = (fr.map pView).map (fun kv => (kv.1, g kv))) :
    fr'.map Prod.fst = fr.map Prod.fst := by
  rw [← keys_pView fr', ← keys_pView fr, h, List.map_map]
  rfl

/-- If every frame id of the list is a key, the inner backfill loop
succeeds, setting job id and status on exactly the listed keys. -/
theorem applyJobFrames_ok (jid : Nat) (st : List Char) :
    ∀ (l : List Nat) (fr : List (Nat × Frame)),
      (∀ fid ∈ l, fid ∈ fr.map Prod.fst) →
      ∃ fr', applyJobFrames jid st l fr = .ok fr' ∧
        fr'.map pView = (fr.map pView).map
          (fun kv => (kv.1, if kv.1 ∈ l then (some jid, some st) else kv.2))
  | [], fr, _ => ⟨fr, rfl, by simp⟩
  | fid :: rest, fr, h => by
    have hfid : fid ∈ fr.map Prod.fst := h fid (List.mem_cons_self _ _)
    have hrest : ∀ x ∈ rest, x ∈ (setFrame fr fid jid st).map Prod.fst := by
      intro x hx
      rw [setFrame_keys]
      exact h x (List.mem_cons_of_mem _ hx)
    obtain ⟨fr', hok, hview⟩ := applyJobFrames_ok jid st rest (setFrame fr fid jid st) hrest
    refine ⟨fr', ?_, ?_⟩
    · simp [applyJobFrames, hfid, hok]
    · rw [hview, setFrame_pView, List.map_map]
      have h2 : ((fun kv : Nat × (Option Nat × Option (List Char)) =>
            (kv.1, if kv.1 ∈ rest then (some jid, some st) else kv.2)) ∘
          (fun kv : Nat × (Option Nat × Option (List Char)) =>
            (kv.1, if kv.1 = fid then (some jid, some st) else kv.2)))
          = (fun kv : Nat × (Option Nat × Option (List Char)) =>
            (kv.1, if kv.1 ∈ fid :: rest then (some jid, some st) else kv.2)) := by
        funext kv
        by_cases h1 : kv.1 ∈ rest <;> by_cases h2 : kv.1 = fid <;>
          simp [h1, h2, List.mem_cons]
      rw [h2]

/-- If some frame id of the list is missing among the keys, the inner
backfill loop fails with the invariant-3 message naming the job and the
first missing frame id. -/
theorem applyJobFrames_err (jid : Nat) (st : List Char) :
    ∀ (l : List Nat) (fr : List (Nat × Frame)),
      (∃ fid ∈ l, fid ∉ fr.map Prod.fst) →
      ∃ fid ∈ l, fid ∉ fr.map Prod.fst ∧
        applyJobFrames jid st l fr = .error (inv3msg jid fid)
  | [], _, h => absurd h (by simp)
  | a :: rest, fr, h => by
    by_cases ha : a ∈ fr.map Prod.fst
    · obtain ⟨f0, hf0l, hf0⟩ := h
      have hf0rest : f0 ∈ rest := by
        rcases List.mem_cons.mp hf0l with h' | h'
        · exact absurd (h' ▸ ha) hf0
        · exact h'
      have hx : ∃ fid ∈ rest, fid ∉ (setFrame fr a jid st).map Prod.fst :=
        ⟨f0, hf0rest, by rw [setFrame_keys]; exact hf0⟩
      obtain ⟨fid, hfl, hfk, herr⟩ := applyJobFrames_err jid st rest _ hx
      rw [setFrame_keys] at hfk
      exact ⟨fid, List.mem_cons_of_mem _ hfl, hfk, by simp [applyJobFrames, ha, herr]⟩
    · exact ⟨a, List.mem_cons_self _ _, ha, by simp [applyJobFrames, ha]⟩

/-- Membership in a job's iterated frame range is the `covers` predicate. -/
theorem mem_jobRange {j : Job} {fid : Nat} :
    fid ∈ jobRange j ↔ covers j fid = true := by
  unfold jobRange covers
  rw [List.mem_range'_1]
  constructor
  · rintro ⟨hl, hr⟩
    simp only [Bool.and_eq_true, decide_eq_true_eq]
    exact ⟨hl, by omega⟩
  · intro h
    simp only [Bool.and_eq_true, decide_eq_true_eq] at h
    exact ⟨h.1, by omega⟩

/-- Peeling one job off `applyView`: the head job's update is applied
first, then the rest (so later jobs overwrite earlier ones). -/
theorem applyView_cons (j : Job) (rest : List Job) (fid : Nat)
    (v : Option Nat × Option (List Char)) :
    applyView (j :: rest) fid v
      = applyView rest fid
          (if fid ∈ jobRange j then (some j.id, some j.status) else v) := by
  unfold applyView lastCovering
  rw [List.filter_cons]
  by_cases hc : covers j fid = true
  · rw [if_pos hc, if_pos (mem_jobRange.mpr hc)]
    cases hfl : List.filter (fun j' => covers j' fid) rest with
    | nil => rfl
    | cons b t =>
      rw [List.getLast?_cons_cons]
      cases hgl : (b :: t).getLast? with
      | none => exact absurd hgl (by simp [List.getLast?_eq_none_iff])
      | some j'' => rfl
  · rw [if_neg hc, if_neg (fun hm => hc (mem_jobRange.mp hm))]

/-- If every job's frame range consists of keys of the index, the whole
backfill pass succeeds, and every entry ends with the job id and status of
the last job covering its key (last-write-wins), or its old values if no
job covers it. -/
theorem applyJobs_ok :
    ∀ (js : List Job) (fr : List (Nat × Frame)),
      (∀ j ∈ js, ∀ fid ∈ jobRange j, fid ∈ fr.map Prod.fst) →
      ∃ fr', applyJobs js fr = .ok fr' ∧
        fr'.map pView = (fr.map pView).map
          (fun kv => (kv.1, applyView js kv.1 kv.2))
  | [], fr, _ => ⟨fr, rfl, by simp [applyView, lastCovering]⟩
  | j :: rest, fr, h => by
    have hj : ∀ fid ∈ jobRange j, fid ∈ fr.map Prod.fst :=
      h j (List.mem_cons_self _ _)
    obtain ⟨fr₁, hok₁, hview₁⟩ := applyJobFrames_ok j.id j.status (jobRange j) fr hj
    have hkeys₁ : fr₁.map Prod.fst = fr.map Prod.fst := map_fst_of_pView_eq hview₁
    have hrest : ∀ j' ∈ rest, ∀ fid ∈ jobRange j', fid ∈ fr₁.map Prod.fst := by
      intro j' hj' fid hfid
      rw [hkeys₁]
      exact h j' (List.mem_cons_of_mem _ hj') fid hfid
    obtain ⟨fr₂, hok₂, hview₂⟩ := applyJobs_ok rest fr₁ hrest
    refine ⟨fr₂, ?_, ?_⟩
    · simp [applyJobs, applyJob, hok₁, hok₂]
    · rw [hview₂, hview₁, List.map_map]
      have hcomp : ((fun kv : Nat × (Option Nat × Option (List Char)) =>
            (kv.1, applyView rest kv.1 kv.2)) ∘
          (fun kv : Nat × (Option Nat × Option (List Char)) =>
            (kv.1, if kv.1 ∈ jobRange j then (some j.id, some j.status) else kv.2)))
          = (fun kv : Nat × (Option Nat × Option (List Char)) =>
            (kv.1, applyView (j :: rest) kv.1 kv.2)) := by
        funext kv
        show (kv.1, applyView rest kv.1
            (if kv.1 ∈ jobRange j then (some j.id, some j.status) else kv.2))
          = (kv.1, applyView (j :: rest) kv.1 kv.2)
        rw [applyView_cons]
      rw [hcomp]

/-- If some job's frame range leaves the key set, the backfill pass fails
with the invariant-3 message naming an offending job and the frame id it
is missing. -/
theorem applyJobs_err :
    ∀ (js : List Job) (fr : List (Nat × Frame)),
      (∃ j ∈ js, ∃ fid ∈ jobRange j, fid ∉ fr.map Prod.fst) →
      ∃ j ∈ js, ∃ fid ∈ jobRange j, fid ∉ fr.map Prod.fst ∧
        applyJobs js fr = .error (inv3msg j.id fid)
  | [], _, h => absurd h (by simp)
  | j :: rest, fr, h => by
    by_cases hj : ∃ fid ∈ jobRange j, fid ∉ fr.map Prod.fst
    · obtain ⟨fid, hfl, hfk, herr⟩ := applyJobFrames_err j.id j.status (jobRange j) fr hj
      exact ⟨j, List.mem_cons_self _ _, fid, hfl, hfk,
        by simp [applyJobs, applyJob, herr]⟩
    · push_neg at hj
      obtain ⟨fr₁, hok₁, hview₁⟩ := applyJobFrames_ok j.id j.status (jobRange j) fr hj
      have hkeys₁ : fr₁.map Prod.fst = fr.map Prod.fst := map_fst_of_pView_eq hview₁
      obtain ⟨j₀, hj₀m, fid₀, hfl₀, hfk₀⟩ := h
      have hj₀rest : j₀ ∈ rest := by
        rcases List.mem_cons.mp hj₀m with h' | h'
        · exact absurd (hj fid₀ (h' ▸ hfl₀)) hfk₀
        · exact h'
      obtain ⟨j', hj'm, fid, hfl, hfk, herr⟩ :=
        applyJobs_err rest fr₁ ⟨j₀, hj₀rest, fid₀, hfl₀, by rw [hkeys₁]; exact hfk₀⟩
      rw [hkeys₁] at hfk
      exact ⟨j', List.mem_cons_of_mem _ hj'm, fid, hfl, hfk,
        by simp [applyJobs, applyJob, hok₁, herr]⟩

/-- The invariant-4 scan succeeds when every entry has a job id. -/
theorem checkFrames_ok :
    ∀ fr : List (Nat × Frame), (∀ p ∈ fr, p.2.job_id ≠ none) →
      checkFrames fr = .ok ()
  | [], _ => rfl
  | (fid, f) :: rest, h => by
    cases hj : f.job_id with
    | none => exact absurd hj (h (fid, f) (List.mem_cons_self _ _))
    | some v =>
      simp [checkFrames, hj,
        checkFrames_ok rest (fun p hp => h p (List.mem_cons_of_mem _ hp))]

/-- The invariant-4 scan fails with the message naming a job-less frame id
when some entry has no job id. -/
theorem checkFrames_err :
    ∀ fr : List (Nat × Frame), (∃ p ∈ fr, p.2.job_id = none) →
      ∃ p ∈ fr, p.2.job_id = none ∧ checkFrames fr = .error (inv4msg p.1)
  | [], h => absurd h (by simp)
  | (fid, f) :: rest, h => by
    cases hj : f.job_id with
    | none => exact ⟨(fid, f), List.mem_cons_self _ _, hj, by simp [checkFrames, hj]⟩
    | some v =>
      have hx : ∃ p ∈ rest, p.2.job_id = none := by
        obtain ⟨p, hpm, hpn⟩ := h
        rcases List.mem_cons.mp hpm with h' | h'
        · rw [h'] at hpn
          exact absurd hpn (by simp [hj])
        · exact ⟨p, h', hpn⟩
      obtain ⟨p, hpm, hpn, herr⟩ := checkFrames_err rest hx
      exact ⟨p, List.mem_cons_of_mem _ hpm, hpn, by simp [checkFrames, hj, herr]⟩

/-- The keys of a zip are the first operand truncated to the second's
length. -/
theorem map_fst_zip_take {α β : Type} :
    ∀ (l₁ : List α) (l₂ : List β),
      (l₁.zip l₂).map Prod.fst = l₁.take l₂.length
  | [], _ => by simp
  | a :: t, [] => by simp
  | a :: t, b :: u => by
    simp [List.zip_cons_cons, map_fst_zip_take t u]

/-- The key column of the initial frame index: the declared frame-id range
truncated to the number of metadata frame descriptors. -/
theorem buildFrames_keys (tid : Nat) (task : FullTask) (meta : FullTaskMetadata) :
    (buildFrames tid task meta).map Prod.fst
      = (frameIdsRange meta).take meta.frames.length := by
  unfold buildFrames
  rw [List.map_map, ← map_fst_zip_take (frameIdsRange meta) meta.frames]
  rfl

/-- The view of the initial frame index: every entry starts with no job id
and no status. -/
theorem buildFrames_pView (tid : Nat) (task : FullTask) (meta : FullTaskMetadata) :
    (buildFrames tid task meta).map pView
      = ((frameIdsRange meta).take meta.frames.length).map
          (fun fid => (fid, ((none : Option Nat), (none : Option (List Char))))) := by
  unfold buildFrames
  rw [List.map_map, ← map_fst_zip_take (frameIdsRange meta) meta.frames, List.map_map]
  rfl

/-- A frame id covered by some job of the list has a last covering job. -/
theorem lastCovering_isSome {js : List Job} {fid : Nat}
    (h : ∃ j ∈ js, fid ∈ jobRange j) :
    ∃ j', lastCovering js fid = some j' := by
  unfold lastCovering
  cases hfl : js.filter (fun j => covers j fid) with
  | nil =>
    obtain ⟨j, hjm, hjr⟩ := h
    exact absurd (mem_jobRange.mp hjr) (by simpa using List.filter_eq_nil_iff.mp hfl j hjm)
  | cons b t =>
    cases hgl : (b :: t).getLast? with
    | none => exact absurd hgl (by simp [List.getLast?_eq_none_iff])
    | some j' => exact ⟨j', rfl⟩

/-- A frame id covered by no job of the list has no last covering job. -/
theorem lastCovering_eq_none {js : List Job} {fid : Nat}
    (h : ∀ j ∈ js, fid ∉ jobRange j) :
    lastCovering js fid = none := by
  unfold lastCovering
  have hfl : js.filter (fun j => covers j fid) = [] := by
    rw [List.filter_eq_nil_iff]
    intro j hj
    exact fun hc => h j hj (mem_jobRange.mpr hc)
  rw [hfl]
  rfl

/-- Master success lemma for `load_task_data`: under single-job segments,
if every job's range lies in the (truncated) key set and every key is
covered by some job, the call succeeds, the key set is the declared range
truncated to the metadata frame count, every entry's job id / status pair
is that of the last covering job, and no entry is left without a job
id. -/
theorem load_task_data_ok_master (tid : Nat) (task : FullTask) (meta : FullTaskMetadata)
    (h1 : ∀ s ∈ task.segments, s.jobs.length = 1)
    (h3 : ∀ j ∈ deriveJobs task, ∀ fid ∈ jobRange j,
        fid ∈ (frameIdsRange meta).take meta.frames.length)
    (h4 : ∀ fid ∈ (frameIdsRange meta).take meta.frames.length,
        ∃ j ∈ deriveJobs task, fid ∈ jobRange j) :
    ∃ fr, load_task_data tid task meta = .ok (deriveJobs task, fr) ∧
      fr.map Prod.fst = (frameIdsRange meta).take meta.frames.length ∧
      fr.map pView = ((frameIdsRange meta).take meta.frames.length).map
        (fun fid => (fid, applyView (deriveJobs task) fid (none, none))) ∧
      ∀ p ∈ fr, p.2.job_id ≠ none := by
  have hall : task.segments.all (fun x => x.jobs.length == 1) = true := by
    rw [List.all_eq_true]
    intro x hx
    simpa using h1 x hx
  have hmem : ∀ j ∈ deriveJobs task, ∀ fid ∈ jobRange j,
      fid ∈ (buildFrames tid task meta).map Prod.fst := by
    intro j hj fid hf
    rw [buildFrames_keys]
    exact h3 j hj fid hf
  obtain ⟨fr, hok, hview⟩ := applyJobs_ok (deriveJobs task) (buildFrames tid task meta) hmem
  have hkeys : fr.map Prod.fst = (frameIdsRange meta).take meta.frames.length := by
    rw [map_fst_of_pView_eq hview, buildFrames_keys]
  have hview' : fr.map pView
      = ((frameIdsRange meta).take meta.frames.length).map
        (fun fid => (fid, applyView (deriveJobs task) fid (none, none))) := by
    rw [hview, buildFrames_pView, List.map_map]
    rfl
  have hnn : ∀ p ∈ fr, p.2.job_id ≠ none := by
    intro p hp
    have hpv : pView p ∈ fr.map pView := List.mem_map_of_mem _ hp
    rw [hview'] at hpv
    obtain ⟨fid, hfidm, heq⟩ := List.mem_map.mp hpv
    have hsnd : applyView (deriveJobs task) fid (none, none)
        = (p.2.job_id, p.2.status) := congrArg Prod.snd heq
    obtain ⟨j', hj'⟩ := lastCovering_isSome (h4 fid hfidm)
    unfold applyView at hsnd
    rw [hj'] at hsnd
    have : some j'.id = p.2.job_id := congrArg Prod.fst hsnd
    rw [← this]
    simp
  refine ⟨fr, ?_, hkeys, hview', hnn⟩
  simp [load_task_data, hall, hok, checkFrames_ok fr hnn]

/-- Reading one entry off the view characterization: its job id and
status are what the job list's backfill assigns to its key. -/
theorem entry_view_of_pView_eq {js : List Job} {tk : List Nat}
    {fr : List (Nat × Frame)}
    (hview : fr.map pView = tk.map (fun fid => (fid, applyView js fid (none, none)))) :
    ∀ p ∈ fr, (p.2.job_id, p.2.status) = applyView js p.1 (none, none) := by
  intro p hp
  have hpv : pView p ∈ fr.map pView := List.mem_map_of_mem _ hp
  rw [hview] at hpv
  obtain ⟨fid, hfidm, heq⟩ := List.mem_map.mp hpv
  have hfst : fid = p.1 := congrArg Prod.fst heq
  have hsnd : applyView js fid (none, none) = (p.2.job_id, p.2.status) :=
    congrArg Prod.snd heq
  rw [← hsnd, hfst]

/-! ### C1: reconciliation success on valid inputs -/

/-- C1: for every (task, meta) pair satisfying invariants 1-4,
`load_task_data` succeeds with the derived job list and a frame index
whose key set is exactly the declared range
`[meta.start_frame, meta.stop_frame]`, in which every entry has a
non-null job id, and each entry's job id and status are those of the
last job covering its frame id. -/
theorem c1_reconcile_total (tid : Nat) (task : FullTask) (meta : FullTaskMetadata)
    (h1 : ∀ s ∈ task.segments, s.jobs.length = 1)
    (h2 : meta.frames.length = meta.stop_frame + 1 - meta.start_frame)
    (h3 : ∀ j ∈ deriveJobs task, ∀ fid ∈ jobRange j, fid ∈ frameIdsRange meta)
    (h4 : ∀ fid ∈ frameIdsRange meta, ∃ j ∈ deriveJobs task, fid ∈ jobRange j) :
    ∃ fr, load_task_data tid task meta = .ok (deriveJobs task, fr) ∧
      fr.map Prod.fst = frameIdsRange meta ∧
      (∀ p ∈ fr, p.2.job_id ≠ none) ∧
      ∀ p ∈ fr, ∀ j : Job, lastCovering (deriveJobs task) p.1 = some j →
        p.2.job_id = some j.id ∧ p.2.status = some j.status := by
  have htake : (frameIdsRange meta).take meta.frames.length = frameIdsRange meta := by
    have hlen : meta.frames.length = (frameIdsRange meta).length := by
      rw [h2]
      simp [frameIdsRange]
    rw [hlen, List.take_length]
  obtain ⟨fr, hok, hkeys, hview, hnn⟩ :=
    load_task_data_ok_master tid task meta h1
      (by rw [htake]; exact h3) (by rw [htake]; exact h4)
  refine ⟨fr, hok, by rw [hkeys, htake], hnn, ?_⟩
  intro p hp j hlast
  have hpv := entry_view_of_pView_eq hview p hp
  unfold applyView at hpv
  rw [hlast] at hpv
  exact ⟨congrArg Prod.fst hpv, congrArg Prod.snd hpv⟩

/-- The C1 scenario task: 2 segments of 1 job each, covering [0,4] and
[5,9]. -/
def taskS : FullTask :=
  { name := "t".toList,
    segments := [⟨0, 4, [⟨11, "s1".toList, "u1".toList⟩]⟩,
                 ⟨5, 9, [⟨12, "s2".toList, "u2".toList⟩]⟩] }

/-- The C1 scenario metadata: frame range [0,9], 10 frame descriptors. -/
def metaS : FullTaskMetadata :=
  { start_frame := 0, stop_frame := 9,
    frames := List.replicate 10 ⟨"f.png".toList, 2, 3⟩ }

/-- C1 (witness): the scenario yields 2 jobs and a 10-entry frame index
with all job ids populated per covering job. -/
theorem c1_witness :
    (deriveJobs taskS).length = 2 ∧
    ∃ fr, load_task_data 1 taskS metaS = .ok (deriveJobs taskS, fr) ∧
      fr.map Prod.fst = frameIdsRange metaS ∧
      (∀ p ∈ fr, p.2.job_id ≠ none) ∧
      ∀ p ∈ fr, ∀ j : Job, lastCovering (deriveJobs taskS) p.1 = some j →
        p.2.job_id = some j.id ∧ p.2.status = some j.status :=
  ⟨by decide,
   c1_reconcile_total 1 taskS metaS (by decide) (by decide) (by decide) (by decide)⟩

/-! ### C2: frame-count mismatch -/

/-- A task with one single-job segment covering [0,4]. -/
def taskC2 : FullTask :=
  { name := "t".toList, segments := [⟨0, 4, [⟨7, "s".toList, "u".toList⟩]⟩] }

/-- Metadata declaring the range [0,9] but carrying only 5 frame
descriptors — invariant 2 violated. -/
def metaC2 : FullTaskMetadata :=
  { start_frame := 0, stop_frame := 9,
    frames := List.replicate 5 ⟨"f.png".toList, 1, 1⟩ }

/-- C2 (counterexample): on a frame-count mismatch (5 descriptors against
a declared 10-id range) `load_task_data` does NOT raise: it returns a
truncated 5-entry frame index. -/
theorem c2_counterexample :
    metaC2.frames.length ≠ (frameIdsRange metaC2).length ∧
    (load_task_data 3 taskC2 metaC2).toOption.map
        (fun r => (r.1.length, r.2.map Prod.fst))
      = some (1, [0, 1, 2, 3, 4]) :=
  ⟨by decide, by decide⟩

/-- C2 (amended): no frame-count check exists; the zip truncates to the
shorter operand, so the frame index is keyed by the declared range
truncated to the descriptor count, and `load_task_data` succeeds whenever
the jobs' ranges fit inside and cover that truncated key set. -/
theorem c2_truncation_amended (tid : Nat) (task : FullTask) (meta : FullTaskMetadata)
    (h1 : ∀ s ∈ task.segments, s.jobs.length = 1)
    (h3 : ∀ j ∈ deriveJobs task, ∀ fid ∈ jobRange j,
        fid ∈ (frameIdsRange meta).take meta.frames.length)
    (h4 : ∀ fid ∈ (frameIdsRange meta).take meta.frames.length,
        ∃ j ∈ deriveJobs task, fid ∈ jobRange j) :
    ∃ fr, load_task_data tid task meta = .ok (deriveJobs task, fr) ∧
      fr.map Prod.fst = (frameIdsRange meta).take meta.frames.length := by
  obtain ⟨fr, hok, hkeys, _, _⟩ := load_task_data_ok_master tid task meta h1 h3 h4
  exact ⟨fr, hok, hkeys⟩

/-- C2 (witness): the amended truncation semantics at the mismatched
input — the returned keys are the truncated range [0,4]. -/
theorem c2_witness :
    ∃ fr, load_task_data 3 taskC2 metaC2 = .ok (deriveJobs taskC2, fr) ∧
      fr.map Prod.fst = (frameIdsRange metaC2).take metaC2.frames.length :=
  c2_truncation_amended 3 taskC2 metaC2 (by decide) (by decide) (by decide)

/-! ### C6: multi-job segment error -/

/-- C6 (amended): a segment whose job count differs from one makes
`load_task_data` fail, but with the fixed message
"Unexpected CVAT data: one segment has multiple jobs." which carries no
identification of the offending segment. -/
theorem c6_multi_job_segment_amended (tid : Nat) (task : FullTask)
    (meta : FullTaskMetadata)
    (hviol : ∃ s ∈ task.segments, s.jobs.length ≠ 1) :
    load_task_data tid task meta = .error inv1msg := by
  have hall : task.segments.all (fun x => x.jobs.length == 1) = false := by
    obtain ⟨s, hs, hn⟩ := hviol
    cases hb : task.segments.all (fun x => x.jobs.length == 1) with
    | false => rfl
    | true => exact absurd (by simpa using List.all_eq_true.mp hb s hs) hn
  simp [load_task_data, hall]

/-- A task with one segment holding two jobs. -/
def taskC6a : FullTask :=
  { name := "t".toList,
    segments := [⟨0, 1, [⟨1, "s".toList, "u".toList⟩, ⟨2, "s".toList, "u".toList⟩]⟩] }

/-- A different task with one segment holding no job at all. -/
def taskC6b : FullTask :=
  { name := "t".toList, segments := [⟨5, 6, []⟩] }

/-- C6 (counterexample): both multi-job-segment violations produce one and
the same error value, whose message contains no digit — the message
cannot name (carry an id of) the offending segment. -/
theorem c6_counterexample :
    load_task_data 1 taskC6a metaC2 = .error inv1msg ∧
    load_task_data 1 taskC6b metaC2 = .error inv1msg ∧
    taskC6a.segments ≠ taskC6b.segments ∧
    inv1msg.all (fun c => !(c.isDigit)) = true :=
  ⟨rfl, rfl, by decide, by decide⟩

/-- C6 (witness): the amended error at the concrete two-job-segment
task. -/
theorem c6_witness :
    load_task_data 1 taskC6a metaC2 = .error inv1msg :=
  c6_multi_job_segment_amended 1 taskC6a metaC2 (by decide)

/-! ### C7: invariant-3 and invariant-4 errors name the offending ids -/

/-- C7: (a) if some job's range covers a frame id absent from the frame
index, `load_task_data` fails with the invariant-3 message naming an
offending job's id and the missing frame id; (b) if all job ranges lie in
the key set but some key is covered by no job, it fails with the
invariant-4 message naming a job-less frame id. -/
theorem c7_error_messages_name_ids (tid : Nat) (task : FullTask)
    (meta : FullTaskMetadata)
    (h1 : ∀ s ∈ task.segments, s.jobs.length = 1) :
    ((∃ j ∈ deriveJobs task, ∃ fid ∈ jobRange j,
        fid ∉ (frameIdsRange meta).take meta.frames.length) →
      ∃ j ∈ deriveJobs task, ∃ fid ∈ jobRange j,
        fid ∉ (frameIdsRange meta).take meta.frames.length ∧
        load_task_data tid task meta = .error (inv3msg j.id fid)) ∧
    ((∀ j ∈ deriveJobs task, ∀ fid ∈ jobRange j,
        fid ∈ (frameIdsRange meta).take meta.frames.length) →
      (∃ fid ∈ (frameIdsRange meta).take meta.frames.length,
        ∀ j ∈ deriveJobs task, fid ∉ jobRange j) →
      ∃ fid ∈ (frameIdsRange meta).take meta.frames.length,
        (∀ j ∈ deriveJobs task, fid ∉ jobRange j) ∧
        load_task_data tid task meta = .error (inv4msg fid)) := by
  have hall : task.segments.all (fun x => x.jobs.length == 1) = true := by
    rw [List.all_eq_true]
    intro x hx
    simpa using h1 x hx
  constructor
  · intro hviol
    have hviol' : ∃ j ∈ deriveJobs task, ∃ fid ∈ jobRange j,
        fid ∉ (buildFrames tid task meta).map Prod.fst := by
      obtain ⟨j, hjm, fid, hfm, hfk⟩ := hviol
      exact ⟨j, hjm, fid, hfm, by rw [buildFrames_keys]; exact hfk⟩
    obtain ⟨j, hjm, fid, hfm, hfk, herr⟩ := applyJobs_err _ _ hviol'
    rw [buildFrames_keys] at hfk
    exact ⟨j, hjm, fid, hfm, hfk, by simp [load_task_data, hall, herr]⟩
  · intro h3 hviol4
    have hmem : ∀ j ∈ deriveJobs task, ∀ fid ∈ jobRange j,
        fid ∈ (buildFrames tid task meta).map Prod.fst := by
      intro j hj fid hf
      rw [buildFrames_keys]
      exact h3 j hj fid hf
    obtain ⟨fr, hok, hview⟩ := applyJobs_ok _ _ hmem
    have hkeys : fr.map Prod.fst = (frameIdsRange meta).take meta.frames.length := by
      rw [map_fst_of_pView_eq hview, buildFrames_keys]
    have hview2 : fr.map pView
        = ((frameIdsRange meta).take meta.frames.length).map
          (fun fid => (fid, applyView (deriveJobs task) fid (none, none))) := by
      rw [hview, buildFrames_pView, List.map_map]
      rfl
    obtain ⟨fid₀, hf₀m, hf₀un⟩ := hviol4
    have hex : ∃ p ∈ fr, p.2.job_id = none := by
      have hm : fid₀ ∈ fr.map Prod.fst := by
        rw [hkeys]
        exact hf₀m
      obtain ⟨p, hpm, hpf⟩ := List.mem_map.mp hm
      refine ⟨p, hpm, ?_⟩
      have hpv := entry_view_of_pView_eq hview2 p hpm
      unfold applyView at hpv
      rw [hpf, lastCovering_eq_none hf₀un] at hpv
      exact congrArg Prod.fst hpv
    obtain ⟨p', hp'm, hp'n, herr⟩ := checkFrames_err fr hex
    refine ⟨p'.1, ?_, ?_, ?_⟩
    · rw [← hkeys]
      exact List.mem_map_of_mem _ hp'm
    · intro j hjm hjr
      have hpv := entry_view_of_pView_eq hview2 p' hp'm
      obtain ⟨j', hj'⟩ := lastCovering_isSome ⟨j, hjm, hjr⟩
      unfold applyView at hpv
      rw [hj'] at hpv
      have hs : p'.2.job_id = some j'.id := congrArg Prod.fst hpv
      rw [hs] at hp'n
      exact Option.noConfusion hp'n
    · simp [load_task_data, hall, hok, herr]

/-- A task whose single job covers [0,12], beyond the 5-key truncated
index of `metaC2`. -/
def taskV3 : FullTask :=
  { name := "t".toList, segments := [⟨0, 12, [⟨7, "s".toList, "u".toList⟩]⟩] }

/-- A task whose single job covers only [0,2], leaving keys 3 and 4 of
`metaC2`'s truncated index job-less. -/
def taskV4 : FullTask :=
  { name := "t".toList, segments := [⟨0, 2, [⟨7, "s".toList, "u".toList⟩]⟩] }

/-- C7 (witness): both error branches at concrete inputs — a job covering
a missing frame id triggers the invariant-3 message, and an uncovered
frame id triggers the invariant-4 message. -/
theorem c7_witness :
    (∃ j ∈ deriveJobs taskV3, ∃ fid ∈ jobRange j,
      fid ∉ (frameIdsRange metaC2).take metaC2.frames.length ∧
      load_task_data 1 taskV3 metaC2 = .error (inv3msg j.id fid)) ∧
    (∃ fid ∈ (frameIdsRange metaC2).take metaC2.frames.length,
      (∀ j ∈ deriveJobs taskV4, fid ∉ jobRange j) ∧
      load_task_data 1 taskV4 metaC2 = .error (inv4msg fid)) :=
  ⟨(c7_error_messages_name_ids 1 taskV3 metaC2 (by decide)).1 (by decide),
   (c7_error_messages_name_ids 1 taskV4 metaC2 (by decide)).2 (by decide) (by decide)⟩

/-! ### C8: overlapping job ranges, last-write-wins -/

/-- C8: on any successful `load_task_data` run, every frame-index entry
whose frame id has a last covering job (in the derived job-list order)
carries exactly that job's id and that same job's status — so on overlaps
the later job wins, and job id and status always come from one job. -/
theorem c8_last_write_wins (tid : Nat) (task : FullTask) (meta : FullTaskMetadata)
    (jobs : List Job) (fr : List (Nat × Frame))
    (h : load_task_data tid task meta = .ok (jobs, fr)) :
    ∀ p ∈ fr, ∀ j : Job, lastCovering jobs p.1 = some j →
      p.2.job_id = some j.id ∧ p.2.status = some j.status := by
  by_cases hall : task.segments.all (fun x => x.jobs.length == 1) = true
  case neg =>
    have hallf : task.segments.all (fun x => x.jobs.length == 1) = false := by
      revert hall
      cases task.segments.all (fun x => x.jobs.length == 1) <;> simp
    rw [show load_task_data tid task meta = .error inv1msg from
      by simp [load_task_data, hallf]] at h
    exact absurd h (by simp)
  case pos =>
  cases happ : applyJobs (deriveJobs task) (buildFrames tid task meta) with
  | error e =>
    rw [show load_task_data tid task meta = .error e from
      by simp [load_task_data, hall, happ]] at h
    exact absurd h (by simp)
  | ok fr₁ =>
    cases hchk : checkFrames fr₁ with
    | error e =>
      rw [show load_task_data tid task meta = .error e from
        by simp [load_task_data, hall, happ, hchk]] at h
      exact absurd h (by simp)
    | ok u =>
      rw [show load_task_data tid task meta = .ok (deriveJobs task, fr₁) from
        by simp [load_task_data, hall, happ, hchk]] at h
      simp only [Except.ok.injEq, Prod.mk.injEq] at h
      obtain ⟨hjobs, hfr⟩ := h
      subst hfr
      subst hjobs
      have hcov : ∀ j ∈ deriveJobs task, ∀ fid ∈ jobRange j,
          fid ∈ (buildFrames tid task meta).map Prod.fst := by
        by_contra hc
        push_neg at hc
        obtain ⟨j', hjm, fid, hfm, hfk⟩ := hc
        obtain ⟨j'', _, fid'', _, _, herr⟩ :=
          applyJobs_err (deriveJobs task) (buildFrames tid task meta)
            ⟨j', hjm, fid, hfm, hfk⟩
        rw [happ] at herr
        exact absurd herr (by simp)
      obtain ⟨fr', hok', hview'⟩ := applyJobs_ok _ _ hcov
      rw [happ] at hok'
      have hfr' : fr' = fr₁ := by
        injection hok' with hh
        exact hh.symm
      subst hfr'
      have hview2 : fr'.map pView
          = ((frameIdsRange meta).take meta.frames.length).map
            (fun fid => (fid, applyView (deriveJobs task) fid (none, none))) := by
        rw [hview', buildFrames_pView, List.map_map]
        rfl
      intro p hp j hlast
      have hpv := entry_view_of_pView_eq hview2 p hp
      unfold applyView at hpv
      rw [hlast] at hpv
      exact ⟨congrArg Prod.fst hpv, congrArg Prod.snd hpv⟩

/-- The C8 scenario: two jobs with overlapping ranges [0,2] and [1,2]. -/
def taskO : FullTask :=
  { name := "t".toList,
    segments := [⟨0, 2, [⟨10, "s1".toList, "u1".toList⟩]⟩,
                 ⟨1, 2, [⟨20, "s2".toList, "u2".toList⟩]⟩] }

/-- The C8 scenario metadata: frame range [0,2], 3 descriptors. -/
def metaO : FullTaskMetadata :=
  { start_frame := 0, stop_frame := 2,
    frames := List.replicate 3 ⟨"x.png".toList, 1, 1⟩ }

/-- The derived job list of the C8 scenario. -/
def jobsO : List Job :=
  [⟨10, "s1".toList, "u1".toList, 0, 2⟩, ⟨20, "s2".toList, "u2".toList, 1, 2⟩]

/-- One frame-index entry of the C8 scenario. -/
def frameO (k jid : Nat) (st : List Char) : Frame :=
  { id := "x".toList, frame_id := k, file_name := "x.png".toList,
    width := 1, height := 1, task_id := 9, task_name := "t".toList,
    job_id := some jid, status := some st }

/-- The frame index the C8 scenario produces: frame 0 from job 10, frames
1 and 2 overwritten by the later job 20. -/
def frO : List (Nat × Frame) :=
  [(0, frameO 0 10 "s1".toList), (1, frameO 1 20 "s2".toList),
   (2, frameO 2 20 "s2".toList)]

/-- C8 (witness): in the overlap scenario, frame id 1 — covered by both
jobs — carries the id and status of the later job 20. -/
theorem c8_witness :
    (frameO 1 20 "s2".toList).job_id = some (20 : Nat) ∧
    (frameO 1 20 "s2".toList).status = some "s2".toList :=
  c8_last_write_wins 9 taskO metaO jobsO frO (by rfl)
    (1, frameO 1 20 "s2".toList) (by decide)
    ⟨20, "s2".toList, "u2".toList, 1, 2⟩ (by decide)
